import Mathlib

/-!
Verification of the dynamic GraphQL schema generator (the `createTypes`
type-synthesis engine and the `signinUser` mutation).

The development shallowly embeds the JavaScript source: records and input
objects become association lists over a `Value` type, promises become
`Except String`, the mutable per-entity field-config objects become
association lists transformed by the three construction passes, and backend
capabilities (`allNodesByType`, `compareHashAsync`, ...) are passed as
function parameters.
-/

namespace GraphcoolApi

/-- A single-quote character as a string (used by the sign-in error messages). -/
def sq : String := String.mk [Char.ofNat 39]

/-- JavaScript runtime values stored in backend records and filter arguments. -/
inductive Value where
  | vString (s : String)
  | vInt (n : Int)
  | vBool (b : Bool)
  | vNull
deriving DecidableEq, Repr

/-- JavaScript truthiness of a modelled value. -/
def Value.truthy : Value → Bool
  | .vString s => s != ("")
  | .vInt n => n != 0
  | .vBool b => b
  | .vNull => false

/-- A backend record: a JavaScript object modelled as an association list from
property names to values; a missing key models an absent property. -/
abbrev DBRecord := List (String × Value)

/-- A filter argument object: each declared filter field is either set to a
value or explicitly null (`none`), mirroring the nullable GraphQL input. -/
abbrev FilterArg := List (String × Option Value)

/-- Translated from getFilterPairsFromFilterArgument (src/unnamed/part_000,
lines 126-139): a falsy filter yields no pairs, otherwise the entries whose
value is not null (JavaScript `!= null`). -/
def getFilterPairsFromFilterArgument (filter : Option FilterArg) :
    List (String × Value) :=
  match filter with
  | none => []
  | some fs => fs.filterMap (fun p => p.2.map (fun v => (p.1, v)))

/-- One record matches the filter pairs when every declared pair compares
strictly equal to the record's stored value (lines 172-174). -/
def matchesFilterPairs (pairs : List (String × Value)) (x : DBRecord) : Bool :=
  pairs.all (fun fp => x.lookup fp.1 == some fp.2)

/-- A relay connection as shaped by the 1:n resolver and the RELAY-mode root
resolver: the edges together with the post-filter total count (page info
carries no claim-relevant data and is omitted). -/
structure Connection where
  edges : List DBRecord
  totalCount : Nat
deriving DecidableEq, Repr

/-- Translated from the 1:n branch of injectRelationships (lines 156-185).
The backend call result and the foreign-id decoding
(convertInputFieldsToInternalIds, from ../utils/graphql.js) are passed as
capabilities; `Except.error` models a rejected promise.  The source chains
.catch(console.log) onto the whole handler, so a rejected backend call is
logged and the promise resolves with undefined, modelled as `.ok none`.
Connection pagination arguments are not supplied on this path, so
connectionFromArray keeps every element as an edge. -/
def resolveOneToMany (decode : FilterArg → FilterArg)
    (backendResult : Except String (List DBRecord))
    (filterArg : Option FilterArg) : Except String (Option Connection) :=
  match backendResult with
  | .error _ => .ok none
  | .ok array =>
    let array :=
      match filterArg with
      | some flt =>
          let decoded := decode flt
          array.filter (matchesFilterPairs (getFilterPairsFromFilterArgument (some decoded)))
      | none => array
    .ok (some { edges := array, totalCount := array.length })

/-- Translated from the 1:1 branch of injectRelationships (lines 187-198):
a falsy stored foreign id resolves to null, otherwise the backend node fetch
is returned and any rejection propagates. -/
def resolveOneToOne (obj : DBRecord) (fieldName : String)
    (backendNode : Value → Except String (Option DBRecord)) :
    Except String (Option DBRecord) :=
  match obj.lookup (fieldName ++ ("Id")) with
  | some v => if v.truthy then backendNode v else .ok none
  | none => .ok none

/-- Sort direction recovered from the orderBy enum value. -/
inductive SortDir where
  | ASC
  | DESC
deriving DecidableEq, Repr

/-- Fuel-indexed splitting worker: structural recursion on the fuel so the
kernel can evaluate it; the fuel never runs out when it starts at the input
length (see charSplitOnF_fuel_irrel below). -/
def charSplitOnF (sep : List Char) : Nat → List Char → List (List Char)
  | _, [] => [[]]
  | 0, xs => [xs]
  | fuel + 1, c :: cs =>
    if sep ≠ [] ∧ sep.isPrefixOf (c :: cs) then
      [] :: charSplitOnF sep fuel ((c :: cs).drop sep.length)
    else
      match charSplitOnF sep fuel cs with
      | [] => [[c]]
      | p :: ps => (c :: p) :: ps

/-- Models JavaScript String.prototype.split for a non-empty separator:
cut at each left-most occurrence of `sep`. -/
def charSplitOn (sep xs : List Char) : List (List Char) :=
  charSplitOnF sep xs.length xs

/-- Translated from the orderBy handling in the root collection resolver
(lines 451-453): the direction comes from an indexOf test for "_DESC", the
field name from split("_" + order)[0]. -/
def parseOrderBy (ob : String) : String × SortDir :=
  if ("_DESC").data <:+: ob.data then
    (String.mk ((charSplitOn ("_DESC").data ob.data).headD []), SortDir.DESC)
  else
    (String.mk ((charSplitOn ("_ASC").data ob.data).headD []), SortDir.ASC)

/-- Kind tag used to totalize comparisons between values of different kinds
(which the source never meaningfully performs: in JavaScript they raise a
TypeError or produce a NaN comparator). -/
def valueKind : Option Value → Nat
  | some (.vString _) => 0
  | some (.vInt _) => 1
  | some (.vBool _) => 2
  | some .vNull => 3
  | none => 4

/-- Models comparator(a, b) ≤ 0 for the orderBy sort comparator
(lines 455-466): two strings compare lowercased (localeCompare modelled as
code-point order on toLower), two numbers compare numerically, and mixed
kinds fall back to a fixed kind order so that the relation is total. -/
def valueLe (x y : Option Value) : Bool :=
  match x, y with
  | some (.vString s), some (.vString t) => decide (s.toLower ≤ t.toLower)
  | some (.vInt m), some (.vInt n) => decide (m ≤ n)
  | _, _ => decide (valueKind x ≤ valueKind y)

/-- The record comparator for a sort field: ascending uses comparator(a, b),
descending swaps the operands exactly as the source does. -/
def recordLe (dir : SortDir) (fieldName : String) (a b : DBRecord) : Bool :=
  match dir with
  | .ASC => valueLe (a.lookup fieldName) (b.lookup fieldName)
  | .DESC => valueLe (b.lookup fieldName) (a.lookup fieldName)

/-- Models array.sort(comparator) (a stable sort) on the looked-up field. -/
def sortRecords (dir : SortDir) (fieldName : String) (rs : List DBRecord) :
    List DBRecord :=
  rs.mergeSort (recordLe dir fieldName)

/-- Models the JavaScript idiom `x || d` on an optional integer argument
(absent and 0 are both falsy). -/
def jsOr (x : Option Int) (d : Int) : Int :=
  match x with
  | none => d
  | some n => if n = 0 then d else n

/-- Models Array.prototype.slice(start, stop): negative indices count from the
end and both indices clamp to the array bounds. -/
def jsSlice {α : Type} (l : List α) (start stop : Int) : List α :=
  let len : Int := l.length
  let s := if start < 0 then max (len + start) 0 else min start len
  let e := if stop < 0 then max (len + stop) 0 else min stop len
  (l.drop s.toNat).take (e - s).toNat

/-- Arguments accepted by a root collection query: the filter object, the
orderBy enum value, and the SIMPLE-mode pagination integers. -/
structure QueryArgs where
  filter : Option FilterArg
  orderBy : Option String
  skip : Option Int
  take : Option Int
deriving DecidableEq, Repr

/-- The output-mode flag threaded through createTypes. -/
inductive SchemaMode where
  | RELAY
  | SIMPLE
deriving DecidableEq, Repr

/-- Result of a root collection query: a connection in RELAY mode, a plain
record list in SIMPLE mode. -/
inductive QueryResult where
  | conn (c : Connection)
  | list (rs : List DBRecord)
deriving DecidableEq, Repr

/-- The filtering and sorting steps of the root collection resolver
(lines 443-467), shared by both output modes.  A present orderBy string is
additionally tested for truthiness as in the source (`if (args.orderBy)`). -/
def applyFilterAndOrder (decode : FilterArg → FilterArg) (args : QueryArgs)
    (array : List DBRecord) : List DBRecord :=
  let array :=
    match args.filter with
    | some flt =>
        let decoded := decode flt
        array.filter (matchesFilterPairs (getFilterPairsFromFilterArgument (some decoded)))
    | none => array
  match args.orderBy with
  | some ob =>
      if ob = ("") then array
      else
        let parsed := parseOrderBy ob
        sortRecords parsed.2 parsed.1 array
  | none => array

/-- Translated from the root collection resolver built in createTypes
(lines 440-483): filter, then sort, then either shape a connection (RELAY)
or slice by skip/take (SIMPLE).  A rejected backend call propagates. -/
def resolveAllNodes (mode : SchemaMode) (decode : FilterArg → FilterArg)
    (backendResult : Except String (List DBRecord)) (args : QueryArgs) :
    Except String QueryResult :=
  match backendResult with
  | .error e => .error e
  | .ok array =>
    let array := applyFilterAndOrder decode args array
    match mode with
    | .RELAY => .ok (.conn { edges := array, totalCount := array.length })
    | .SIMPLE =>
        let skip := jsOr args.skip 0
        let tk := jsOr args.take array.length
        .ok (.list (jsSlice array skip (skip + tk)))

/-- Payload of a successful sign-in: the issued token and the viewer id. -/
structure SigninPayload where
  token : String
  viewerId : Option Value
deriving DecidableEq, Repr

/-- Translated from the signinUser mutateAndGetPayload (src/unnamed/part_000,
lines 40-60).  compareHashAsync and tokenForUser are backend capabilities;
allUsers.filter(...)[0] is the first user whose stored email strictly equals
the supplied email; both failure messages are the source's strings. -/
def signinUser (compareHash : String → Option Value → Bool)
    (tokenForUser : DBRecord → String)
    (allUsers : Except String (List DBRecord))
    (email password : String) : Except String SigninPayload :=
  match allUsers with
  | .error e => .error e
  | .ok users =>
    match users.find? (fun node => node.lookup ("email") == some (Value.vString email)) with
    | none => .error (("no user with the email ") ++ sq ++ email ++ sq)
    | some user =>
        if compareHash password (user.lookup ("password")) then
          .ok { token := tokenForUser user, viewerId := user.lookup ("id") }
        else
          .error (("incorrect password for email ") ++ sq ++ email ++ sq)

/-- An abstract client schema field descriptor, as consumed by createTypes. -/
structure ClientSchemaField where
  fieldName : String
  typeIdentifier : String
  isRequired : Bool
  isList : Bool
  enumValues : List String
  defaultValue : Option String
deriving DecidableEq, Repr

/-- One entity schema: its model name and ordered field descriptors. -/
structure ClientSchema where
  modelName : String
  fields : List ClientSchemaField
deriving DecidableEq, Repr

/-- The shapes a generated field type can take across the three construction
passes: concrete scalars, a structural enum type, the unresolved relation
placeholder ({__isRelation: true, typeIdentifier}), the post-wiring
connection and object references, and the non-null wrapper. -/
inductive GType where
  | gString
  | gBoolean
  | gInt
  | gFloat
  | gID
  | gEnum (name : String) (values : List String)
  | gRelation (typeIdentifier : String)
  | gConnection (modelName : String)
  | gObject (modelName : String)
  | gNonNull (t : GType)
deriving DecidableEq, Repr

/-- The __isRelation marker on a parsed type. -/
def GType.isRelation : GType → Bool
  | .gRelation _ => true
  | _ => false

/-- Translated from parseClientType inside createTypes (lines 218-239): maps a
field's typeIdentifier to the concrete schema type; every identifier outside
the seven switch cases (note the case is the literal string "GraphQLID", not
"ID") degrades to the relation placeholder.  The enum branch is modelled
structurally here; cached enum instance identity is modelled separately. -/
def parseClientType (field : ClientSchemaField) (modelName : String) : GType :=
  match field.typeIdentifier with
  | "String" => .gString
  | "Boolean" => .gBoolean
  | "Int" => .gInt
  | "Float" => .gFloat
  | "GraphQLID" => .gID
  | "Password" => .gString
  | "Enum" => .gEnum (modelName ++ ("_") ++ field.fieldName) field.enumValues
  | _ => .gRelation field.typeIdentifier

/-- Translated from generateObjectType (lines 245-267), keeping the
field-name-to-type map: mapArrayToObject keyed by fieldName, modelled as an
association list in field order (field resolvers are modelled separately). -/
def generateObjectTypeFields (clientSchema : ClientSchema) :
    List (String × GType) :=
  clientSchema.fields.map
    (fun f => (f.fieldName, parseClientType f clientSchema.modelName))

/-- Models the in-place mutation objectTypeFields[name].type = t. -/
def setFieldType (m : List (String × GType)) (name : String) (t : GType) :
    List (String × GType) :=
  m.map (fun p => if p.1 = name then (p.1, t) else p)

/-- Translated from injectRelationships (lines 141-201), restricted to the
type rewriting (the attached resolvers are resolveOneToMany and
resolveOneToOne above).  The fields are pre-filtered on the placeholder
marker exactly as the source's .filter(...).forEach(...); looking up a target
entity absent from the batch dereferences undefined in the source (a thrown
TypeError), modelled as none.  injectStep is the body of the forEach. -/
def injectStep (allModelNames : List String) (m : List (String × GType))
    (f : ClientSchemaField) : Option (List (String × GType)) :=
  match m.lookup f.fieldName with
  | some (GType.gRelation ti) =>
      if ti ∈ allModelNames then
        some (setFieldType m f.fieldName
          (if f.isList then GType.gConnection ti else GType.gObject ti))
      else none
  | _ => none

/-- The pass itself: the fields are pre-filtered on the placeholder marker
exactly as the source's .filter(...).forEach(...). -/
def injectRelationships (m : List (String × GType)) (clientSchema : ClientSchema)
    (allModelNames : List String) : Option (List (String × GType)) :=
  (clientSchema.fields.filter
      (fun f => ((m.lookup f.fieldName).map GType.isRelation).getD false)).foldlM
    (injectStep allModelNames) m

/-- Translated from wrapWithNonNull (lines 203-214): every required field's
current type is wrapped in place (the none branch is unreachable because
pass 1 put every schema field into the map); wrapStep is the forEach body. -/
def wrapStep (m : List (String × GType)) (f : ClientSchemaField) :
    List (String × GType) :=
  match m.lookup f.fieldName with
  | some t => setFieldType m f.fieldName (GType.gNonNull t)
  | none => m

/-- The non-null pass over one entity's required fields. -/
def wrapWithNonNull (m : List (String × GType)) (clientSchema : ClientSchema) :
    List (String × GType) :=
  (clientSchema.fields.filter (fun f => f.isRequired)).foldl wrapStep m

/-- Translated from createTypes (lines 216-431), restricted to the per-entity
object-type field maps: pass 1 builds every entity's fields with relation
placeholders, pass 2 wires relationships for every entity, pass 3 wraps
required fields in non-null. -/
def createTypes (clientSchemas : List ClientSchema) :
    Option (List (ClientSchema × List (String × GType))) :=
  let base := clientSchemas.map (fun s => (s, generateObjectTypeFields s))
  let names := clientSchemas.map (fun s => s.modelName)
  (base.mapM (fun p => (injectRelationships p.2 p.1 names).map (fun m => (p.1, m)))).map
    (fun wired => wired.map (fun p => (p.1, wrapWithNonNull p.2 p.1)))

/-- The final resolved type of one field, before non-null wrapping: relation
placeholders become the connection type (isList) or the related object type,
every other parse stands. -/
def resolveFieldType (f : ClientSchemaField) (modelName : String) : GType :=
  match parseClientType f modelName with
  | GType.gRelation ti => if f.isList then GType.gConnection ti else GType.gObject ti
  | t => t

/-- Translated from generateObjectMutationInputArguments (lines 269-296): the
scalar-named arguments and the `${fieldName}Id` one-to-one arguments, with
the source's exact non-null condition; the two keyed argument objects are
association lists and mergeObjects is append. -/
def generateObjectMutationInputArguments (clientSchema : ClientSchema)
    (scalarFilter oneToOneFilter : ClientSchemaField → Bool)
    (forceFieldsOptional forceIdFieldOptional : Bool) : List (String × GType) :=
  let scalarArguments :=
    (clientSchema.fields.filter scalarFilter).map (fun f =>
      (f.fieldName,
        if f.isRequired &&
            !(forceFieldsOptional && (forceIdFieldOptional || f.fieldName != ("id")))
        then GType.gNonNull (parseClientType f clientSchema.modelName)
        else parseClientType f clientSchema.modelName))
  let oneToOneArguments :=
    (clientSchema.fields.filter oneToOneFilter).map (fun f =>
      (f.fieldName ++ ("Id"),
        if f.isRequired && !forceFieldsOptional then GType.gNonNull GType.gID
        else GType.gID))
  scalarArguments ++ oneToOneArguments

/-- Translated from generateCreateObjectMutationInputArguments
(lines 298-307). -/
def generateCreateObjectMutationInputArguments (s : ClientSchema) :
    List (String × GType) :=
  generateObjectMutationInputArguments s
    (fun f => !(parseClientType f s.modelName).isRelation && f.fieldName != ("id"))
    (fun f => (parseClientType f s.modelName).isRelation && !f.isList)
    false false

/-- Translated from generateUpdateObjectMutationInputArguments
(lines 309-318): forceFieldsOptional is true and forceIdFieldOptional keeps
its default false. -/
def generateUpdateObjectMutationInputArguments (s : ClientSchema) :
    List (String × GType) :=
  generateObjectMutationInputArguments s
    (fun f => !(parseClientType f s.modelName).isRelation)
    (fun f => (parseClientType f s.modelName).isRelation && !f.isList)
    true false

/-- Translated from generateQueryOrderByEnum (lines 356-368): the enum value
names, an ascending and a descending value per scalar field.  isScalar lives
in ../utils/graphql.js and is passed as a capability. -/
def generateQueryOrderByEnumValues (isScalar : String → Bool)
    (clientSchema : ClientSchema) : List String :=
  (clientSchema.fields.filter (fun f => isScalar f.typeIdentifier)).foldr
    (fun f acc => (f.fieldName ++ ("_ASC")) :: (f.fieldName ++ ("_DESC")) :: acc) []

/-- A GraphQLEnumType instance: its heap identity together with its
structural content. -/
structure EnumInstance where
  instanceId : Nat
  name : String
  values : List String
deriving DecidableEq, Repr

/-- The JavaScript heap, reduced to an allocation counter: every evaluation
of `new GraphQLEnumType(...)` yields an object distinct from all others. -/
structure Heap where
  nextId : Nat
deriving DecidableEq, Repr

/-- Allocates a fresh enum type instance. -/
def newEnumInstance (h : Heap) (name : String) (values : List String) :
    EnumInstance × Heap :=
  ({ instanceId := h.nextId, name := name, values := values }, { nextId := h.nextId + 1 })

/-- Translated from the Enum branch of parseClientType (lines 226-235),
with the per-invocation cache and the heap threaded explicitly: a cached key
returns the cached instance, otherwise a fresh instance is allocated and
recorded under `${modelName}_${fieldName}`. -/
def parseEnumField (cache : List (String × EnumInstance)) (h : Heap)
    (modelName : String) (f : ClientSchemaField) :
    EnumInstance × List (String × EnumInstance) × Heap :=
  let key := modelName ++ ("_") ++ f.fieldName
  match cache.lookup key with
  | some inst => (inst, cache, h)
  | none =>
      let alloc := newEnumInstance h key f.enumValues
      (alloc.1, cache ++ [(key, alloc.1)], alloc.2)

/-- The enum types produced by one invocation of createTypes: the cache
`const enumTypes = {}` starts empty on every invocation (line 217), while
the heap persists across invocations. -/
def createTypesEnums (h : Heap) (clientSchemas : List ClientSchema) :
    List (String × EnumInstance) × Heap :=
  clientSchemas.foldl
    (fun acc s =>
      s.fields.foldl
        (fun acc f =>
          if f.typeIdentifier = ("Enum") then
            let step := parseEnumField acc.1 acc.2 s.modelName f
            (step.2.1, step.2.2)
          else acc)
        acc)
    ([], h)

/-! Small demonstration schemas shared by several concrete instantiations. -/

/-- A minimal related entity. -/
def demoPostSchema : ClientSchema :=
  ⟨("Post"), [⟨("id"), ("String"), true, false, [], none⟩]⟩

/-- An entity with a required scalar, a required 1:n relation and an optional
1:1 relation. -/
def demoUserSchema : ClientSchema :=
  ⟨("User"),
    [⟨("id"), ("String"), true, false, [], none⟩,
     ⟨("posts"), ("Post"), true, true, [], none⟩,
     ⟨("boss"), ("User"), false, false, [], none⟩]⟩

/-- The demonstration batch. -/
def demoSchemas : List ClientSchema := [demoUserSchema, demoPostSchema]

/-! Association-list helper lemmas. -/

theorem lookup_append_of_none {β : Type} (l₁ l₂ : List (String × β)) (k : String)
    (h : l₁.lookup k = none) : (l₁ ++ l₂).lookup k = l₂.lookup k := by
  induction l₁ with
  | nil => rfl
  | cons p t ih =>
    obtain ⟨k₂, v⟩ := p
    by_cases hk : k = k₂
    · subst hk; simp at h
    · have hbeq : (k == k₂) = false := beq_false_of_ne hk
      rw [List.cons_append, List.lookup_cons, hbeq]
      rw [List.lookup_cons, hbeq] at h
      exact ih h

theorem lookup_setFieldType_ne (m : List (String × GType)) (name nm : String)
    (t : GType) (h : nm ≠ name) :
    (setFieldType m name t).lookup nm = m.lookup nm := by
  induction m with
  | nil => rfl
  | cons p rest ih =>
    obtain ⟨k, v⟩ := p
    simp only [setFieldType, List.map_cons] at ih ⊢
    by_cases hk : k = name
    · have hbeq : (nm == k) = false := beq_false_of_ne (hk ▸ h)
      rw [if_pos hk]
      rw [List.lookup_cons, List.lookup_cons, hbeq]
      exact ih
    · rw [if_neg hk]
      rw [List.lookup_cons, List.lookup_cons]
      cases hbeq : nm == k
      · exact ih
      · rfl

theorem lookup_setFieldType_self (m : List (String × GType)) (name : String)
    (t v : GType) (h : m.lookup name = some v) :
    (setFieldType m name t).lookup name = some t := by
  induction m with
  | nil => simp at h
  | cons p rest ih =>
    obtain ⟨k, v₂⟩ := p
    simp only [setFieldType, List.map_cons] at ih ⊢
    by_cases hk : k = name
    · subst hk
      rw [if_pos rfl]
      simp [List.lookup_cons]
    · have hbeq : (name == k) = false := beq_false_of_ne (fun he => hk he.symm)
      rw [if_neg hk]
      rw [List.lookup_cons, hbeq]
      rw [List.lookup_cons, hbeq] at h
      exact ih h

theorem lookup_map_fieldName (g : ClientSchemaField → GType) :
    ∀ (l : List ClientSchemaField) (f : ClientSchemaField),
      (l.map (fun x => x.fieldName)).Nodup → f ∈ l →
      (l.map (fun x => (x.fieldName, g x))).lookup f.fieldName = some (g f) := by
  intro l
  induction l with
  | nil => intro f _ hf; simp at hf
  | cons a rest ih =>
    intro f hnd hf
    simp only [List.map_cons, List.nodup_cons] at hnd
    rcases List.mem_cons.mp hf with rfl | hmem
    · simp [List.lookup_cons]
    · have hne : f.fieldName ≠ a.fieldName := by
        intro he
        exact hnd.1 (he ▸ List.mem_map_of_mem (fun x => x.fieldName) hmem)
      rw [List.map_cons, List.lookup_cons, beq_false_of_ne hne]
      exact ih f hnd.2 hmem

/-- parseClientType never produces a non-null wrapper. -/
theorem parseClientType_ne_nonNull (f : ClientSchemaField) (m : String) (t : GType) :
    parseClientType f m ≠ GType.gNonNull t := by
  unfold parseClientType
  split <;> simp

/-! Claim C2. -/

/-- C2: for a one-to-many relation field, when the backend returns records and
a filter argument is present, the resolver's connection has totalCount equal
to the number of records whose stored values match every non-null decoded
filter pair, and its edges are exactly those matching records in their
original relative order (a sublist of the backend array). -/
theorem one_to_many_filter_connection (decode : FilterArg → FilterArg)
    (records : List DBRecord) (flt : FilterArg) :
    resolveOneToMany decode (Except.ok records) (some flt) =
      Except.ok (some
        { edges := records.filter
            (matchesFilterPairs (getFilterPairsFromFilterArgument (some (decode flt)))),
          totalCount := records.countP
            (matchesFilterPairs (getFilterPairsFromFilterArgument (some (decode flt)))) }) ∧
    (records.filter
        (matchesFilterPairs (getFilterPairsFromFilterArgument (some (decode flt))))).Sublist
      records := by
  constructor
  · simp [resolveOneToMany, List.countP_eq_length_filter]
  · exact List.filter_sublist records

/-! Claim C4. -/

/-- C4 counterexample: a field whose typeIdentifier is the literal string
"ID" is not mapped to a concrete scalar type; it falls through the switch
(whose case is "GraphQLID") and becomes the relation placeholder. -/
theorem parse_id_yields_relation_placeholder :
    parseClientType ⟨("id"), ("ID"), true, false, [], none⟩ ("User") =
      GType.gRelation ("ID") ∧
    (parseClientType ⟨("id"), ("ID"), true, false, [], none⟩ ("User")).isRelation = true := by
  constructor <;> decide

/-- C4 amended: the scalar/enum mapper returns a concrete (non-placeholder)
schema type exactly for the seven switch-case identifiers, whose identity
scalar case is "GraphQLID" rather than "ID"; every identifier outside that
list (including "ID") yields the relation placeholder carrying the
typeIdentifier. -/
theorem parse_client_type_cases (f : ClientSchemaField) (m : String) :
    (f.typeIdentifier ∈
        [("String"), ("Boolean"), ("Int"), ("Float"), ("GraphQLID"), ("Password"), ("Enum")] →
      (parseClientType f m).isRelation = false) ∧
    (f.typeIdentifier ∉
        [("String"), ("Boolean"), ("Int"), ("Float"), ("GraphQLID"), ("Password"), ("Enum")] →
      parseClientType f m = GType.gRelation f.typeIdentifier) := by
  constructor
  · intro hmem
    simp only [List.mem_cons, List.not_mem_nil, or_false] at hmem
    rcases hmem with h | h | h | h | h | h | h <;>
      simp [parseClientType, h, GType.isRelation]
  · intro hmem
    simp only [List.mem_cons, List.not_mem_nil, or_false, not_or] at hmem
    unfold parseClientType
    split <;> simp_all

/-- C4 amended, witness instantiation. -/
theorem parse_client_type_cases_witness :
    (parseClientType ⟨("name"), ("String"), false, false, [], none⟩ ("User")).isRelation = false ∧
    parseClientType ⟨("author"), ("Author"), false, false, [], none⟩ ("Post") =
      GType.gRelation ("Author") := by
  constructor
  · exact (parse_client_type_cases ⟨("name"), ("String"), false, false, [], none⟩ ("User")).1
      (by decide)
  · exact (parse_client_type_cases ⟨("author"), ("Author"), false, false, [], none⟩ ("Post")).2
      (by decide)

/-! Claim C10. -/

/-- C10: in SIMPLE output mode a take of 0 (a falsy value) is replaced by the
full array length, so the resolver behaves exactly as if take had been
omitted, returning all remaining records from skip onward rather than an
empty list. -/
theorem simple_mode_take_zero_is_omitted (decode : FilterArg → FilterArg) :
    (∀ (array : List DBRecord) (flt : Option FilterArg) (ob : Option String)
        (sk : Option Int),
        resolveAllNodes SchemaMode.SIMPLE decode (Except.ok array)
            { filter := flt, orderBy := ob, skip := sk, take := some 0 } =
          resolveAllNodes SchemaMode.SIMPLE decode (Except.ok array)
            { filter := flt, orderBy := ob, skip := sk, take := none }) ∧
    (∀ array : List DBRecord,
        resolveAllNodes SchemaMode.SIMPLE decode (Except.ok array)
            { filter := none, orderBy := none, skip := none, take := some 0 } =
          Except.ok (QueryResult.list array)) := by
  constructor
  · intro array flt ob sk
    rfl
  · intro array
    simp only [resolveAllNodes, applyFilterAndOrder, jsOr, jsSlice]
    norm_num
    rw [if_neg (show ¬ ((array.length : Int) < 0) by omega)]
    omega

/-! Claim C5. -/

/-- C5 counterexample: when the backend call of the one-to-many relation
resolver rejects, the resolver resolves with undefined (the value returned
by the console.log catch handler), not with an empty connection: the result
is ok-none and differs from an empty-collection connection. -/
theorem one_to_many_error_not_empty_connection :
    resolveOneToMany (fun f => f) (Except.error ("db down")) none = Except.ok none ∧
    resolveOneToMany (fun f => f) (Except.error ("db down")) none ≠
      Except.ok (some { edges := [], totalCount := 0 }) := by
  constructor
  · rfl
  · intro h
    simp [resolveOneToMany] at h

/-- C5 amended: a rejected backend call on the one-to-many relation path is
caught (and logged), so the resolver resolves with an undefined value
(surfaced as an absent field) instead of rejecting or producing a
connection; on the one-to-one relation path, the root collection path and
the sign-in path a rejected backend call propagates unchanged. -/
theorem backend_error_propagation_policy :
    (∀ (decode : FilterArg → FilterArg) (e : String) (flt : Option FilterArg),
        resolveOneToMany decode (Except.error e) flt = Except.ok none) ∧
    (∀ (obj : DBRecord) (fieldName : String) (e : String) (v : Value),
        obj.lookup (fieldName ++ ("Id")) = some v → v.truthy = true →
        resolveOneToOne obj fieldName (fun _ => Except.error e) = Except.error e) ∧
    (∀ (mode : SchemaMode) (decode : FilterArg → FilterArg) (e : String) (args : QueryArgs),
        resolveAllNodes mode decode (Except.error e) args = Except.error e) ∧
    (∀ (compareHash : String → Option Value → Bool) (tokenForUser : DBRecord → String)
        (e : String) (email password : String),
        signinUser compareHash tokenForUser (Except.error e) email password =
          Except.error e) := by
  refine ⟨fun _ _ _ => rfl, ?_, fun _ _ _ _ => rfl, fun _ _ _ _ _ => rfl⟩
  intro obj fieldName e v hv htr
  simp [resolveOneToOne, hv, htr]

/-- C5 amended, witness instantiation for the hypotheses of the one-to-one
conjunct. -/
theorem backend_error_propagation_policy_witness :
    resolveOneToOne [(("bossId"), Value.vString ("u2"))] ("boss")
        (fun _ => Except.error ("db down")) = Except.error ("db down") :=
  backend_error_propagation_policy.2.1
    [(("bossId"), Value.vString ("u2"))] ("boss") ("db down")
    (Value.vString ("u2")) (by decide) (by decide)

/-! Claim C7. -/

theorem jsOr_none (d : Int) : jsOr none d = d := rfl

theorem jsOr_some_zero_default (n : Int) : jsOr (some n) 0 = n := by
  by_cases h : n = 0 <;> simp [jsOr, h]

theorem jsOr_some_of_ne (n d : Int) (h : n ≠ 0) : jsOr (some n) d = n := by
  simp [jsOr, h]

/-- jsSlice with a non-negative start and positive length behaves as
drop-then-take. -/
theorem jsSlice_nonneg {α : Type} (l : List α) (s t : Int) (hs : 0 ≤ s) (ht : 0 < t) :
    jsSlice l s (s + t) = (l.drop s.toNat).take t.toNat := by
  simp only [jsSlice]
  rw [if_neg (by omega), if_neg (by omega)]
  rcases le_or_lt s (l.length : Int) with hle | hgt
  · rw [min_eq_left hle]
    rcases le_or_lt (s + t) (l.length : Int) with hle2 | hgt2
    · rw [min_eq_left hle2]
      congr 1
      omega
    · rw [min_eq_right (le_of_lt hgt2)]
      have hlen : (l.drop s.toNat).length = l.length - s.toNat := List.length_drop _ _
      rw [List.take_of_length_le (by omega), List.take_of_length_le (by omega)]
  · rw [min_eq_right (le_of_lt hgt)]
    have h1 : l.drop ((l.length : Int)).toNat = [] := by
      rw [Int.toNat_natCast]
      exact List.drop_length l
    have h2 : l.drop s.toNat = [] := List.drop_eq_nil_of_le (by omega)
    rw [h1, h2]
    simp

/-- jsSlice from a non-negative start to the end of the array is drop. -/
theorem jsSlice_skip_all {α : Type} (l : List α) (s : Int) (hs : 0 ≤ s) :
    jsSlice l s (s + (l.length : Int)) = l.drop s.toNat := by
  simp only [jsSlice]
  rw [if_neg (by omega), if_neg (by omega),
    min_eq_right (show (l.length : Int) ≤ s + l.length by omega)]
  rcases le_or_lt s (l.length : Int) with hle | hgt
  · rw [min_eq_left hle]
    have hlen : (l.drop s.toNat).length = l.length - s.toNat := List.length_drop _ _
    rw [List.take_of_length_le (by omega)]
  · rw [min_eq_right (le_of_lt hgt)]
    have h1 : l.drop ((l.length : Int)).toNat = [] := by
      rw [Int.toNat_natCast]
      exact List.drop_length l
    have h2 : l.drop s.toNat = [] := List.drop_eq_nil_of_le (by omega)
    rw [h1, h2]
    simp

/-- C7: in SIMPLE output mode the root collection resolver returns the slice
of the filtered-and-sorted record sequence starting at skip with length
take: skip 2 and take 2 over five records yield the records at indices 2
and 3; a present skip s ≥ 0 and take t > 0 slice as drop-then-take; an
omitted skip defaults to 0; an omitted take returns all remaining records
from skip onward. -/
theorem simple_mode_pagination (decode : FilterArg → FilterArg) :
    (∀ r0 r1 r2 r3 r4 : DBRecord,
        resolveAllNodes SchemaMode.SIMPLE decode (Except.ok [r0, r1, r2, r3, r4])
            { filter := none, orderBy := none, skip := some 2, take := some 2 } =
          Except.ok (QueryResult.list [r2, r3])) ∧
    (∀ (array : List DBRecord) (args : QueryArgs) (s t : Int),
        args.skip = some s → args.take = some t → 0 ≤ s → 0 < t →
        resolveAllNodes SchemaMode.SIMPLE decode (Except.ok array) args =
          Except.ok (QueryResult.list
            (((applyFilterAndOrder decode args array).drop s.toNat).take t.toNat))) ∧
    (∀ (array : List DBRecord) (flt : Option FilterArg) (ob : Option String)
        (tk : Option Int),
        resolveAllNodes SchemaMode.SIMPLE decode (Except.ok array)
            { filter := flt, orderBy := ob, skip := none, take := tk } =
          resolveAllNodes SchemaMode.SIMPLE decode (Except.ok array)
            { filter := flt, orderBy := ob, skip := some 0, take := tk }) ∧
    (∀ (array : List DBRecord) (args : QueryArgs) (s : Int),
        args.skip = some s → args.take = none → 0 ≤ s →
        resolveAllNodes SchemaMode.SIMPLE decode (Except.ok array) args =
          Except.ok (QueryResult.list
            ((applyFilterAndOrder decode args array).drop s.toNat))) := by
  refine ⟨fun r0 r1 r2 r3 r4 => rfl, ?_, fun array flt ob tk => rfl, ?_⟩
  · intro array args s t hskip htake hs ht
    simp only [resolveAllNodes, hskip, htake, jsOr_some_zero_default,
      jsOr_some_of_ne _ _ (by omega : t ≠ 0)]
    rw [jsSlice_nonneg _ _ _ hs ht]
  · intro array args s hskip htake hs
    simp only [resolveAllNodes, hskip, htake, jsOr_some_zero_default, jsOr_none]
    rw [jsSlice_skip_all _ _ hs]

/-- C7 witness instantiation: a concrete five-record collection sliced with
skip 2 and take 2, and the hypothesised slice laws at concrete inputs. -/
theorem simple_mode_pagination_witness :
    resolveAllNodes SchemaMode.SIMPLE (fun f => f)
        (Except.ok [[(("i"), Value.vInt 0)], [(("i"), Value.vInt 1)], [(("i"), Value.vInt 2)],
          [(("i"), Value.vInt 3)], [(("i"), Value.vInt 4)]])
        { filter := none, orderBy := none, skip := some 2, take := some 2 } =
      Except.ok (QueryResult.list [[(("i"), Value.vInt 2)], [(("i"), Value.vInt 3)]]) ∧
    resolveAllNodes SchemaMode.SIMPLE (fun f => f)
        (Except.ok [[(("i"), Value.vInt 0)], [(("i"), Value.vInt 1)], [(("i"), Value.vInt 2)]])
        { filter := none, orderBy := none, skip := some 1, take := none } =
      Except.ok (QueryResult.list
        ((applyFilterAndOrder (fun f => f)
            { filter := none, orderBy := none, skip := some 1, take := none }
            [[(("i"), Value.vInt 0)], [(("i"), Value.vInt 1)], [(("i"), Value.vInt 2)]]).drop
          (1 : Int).toNat)) := by
  constructor
  · exact (simple_mode_pagination (fun f => f)).1
      [(("i"), Value.vInt 0)] [(("i"), Value.vInt 1)] [(("i"), Value.vInt 2)]
      [(("i"), Value.vInt 3)] [(("i"), Value.vInt 4)]
  · exact (simple_mode_pagination (fun f => f)).2.2.2 _ _ 1 rfl rfl (by omega)

/-! Claim C3. -/

/-- C3: the sign-in mutation over the backend's user list resolves to the
issued token and the viewer id of the first user whose stored email equals
the supplied email when the password comparison succeeds; it rejects with
the unknown-email message when no user carries the email; it rejects with
the wrong-password message when the user is found but the comparison
fails. -/
theorem signin_user_cases (compareHash : String → Option Value → Bool)
    (tokenForUser : DBRecord → String) (users : List DBRecord)
    (email password : String) :
    ((∀ u ∈ users, u.lookup ("email") ≠ some (Value.vString email)) →
        signinUser compareHash tokenForUser (Except.ok users) email password =
          Except.error (("no user with the email ") ++ sq ++ email ++ sq)) ∧
    (∀ user,
        users.find? (fun node => node.lookup ("email") == some (Value.vString email)) =
          some user →
        (compareHash password (user.lookup ("password")) = true →
            signinUser compareHash tokenForUser (Except.ok users) email password =
              Except.ok { token := tokenForUser user, viewerId := user.lookup ("id") }) ∧
        (compareHash password (user.lookup ("password")) = false →
            signinUser compareHash tokenForUser (Except.ok users) email password =
              Except.error (("incorrect password for email ") ++ sq ++ email ++ sq))) := by
  constructor
  · intro hnone
    have hfind :
        users.find? (fun node => node.lookup ("email") == some (Value.vString email)) =
          none := by
      rw [List.find?_eq_none]
      intro x hx
      simpa using hnone x hx
    simp [signinUser, hfind]
  · intro user hfind
    constructor
    · intro hcmp
      simp [signinUser, hfind, hcmp]
    · intro hcmp
      simp [signinUser, hfind, hcmp]

/-- A concrete stored user for the sign-in scenarios. -/
def demoUser : DBRecord :=
  [(("email"), Value.vString ("a@b.com")), (("password"), Value.vString ("P")),
   (("id"), Value.vString ("u1"))]

/-- C3 witness instantiation: all three sign-in outcomes on a concrete user
list whose password capability compares for literal equality. -/
theorem signin_user_cases_witness :
    signinUser (fun p h => h == some (Value.vString p)) (fun _ => ("tok"))
        (Except.ok [demoUser]) ("a@b.com") ("P") =
      Except.ok { token := ("tok"), viewerId := some (Value.vString ("u1")) } ∧
    signinUser (fun p h => h == some (Value.vString p)) (fun _ => ("tok"))
        (Except.ok [demoUser]) ("z@b.com") ("P") =
      Except.error (("no user with the email ") ++ sq ++ ("z@b.com") ++ sq) ∧
    signinUser (fun p h => h == some (Value.vString p)) (fun _ => ("tok"))
        (Except.ok [demoUser]) ("a@b.com") ("WRONG") =
      Except.error (("incorrect password for email ") ++ sq ++ ("a@b.com") ++ sq) := by
  refine ⟨?_, ?_, ?_⟩
  · exact ((signin_user_cases (fun p h => h == some (Value.vString p)) (fun _ => ("tok"))
      [demoUser] ("a@b.com") ("P")).2 demoUser (by decide)).1 (by decide)
  · exact (signin_user_cases (fun p h => h == some (Value.vString p)) (fun _ => ("tok"))
      [demoUser] ("z@b.com") ("P")).1 (by decide)
  · exact ((signin_user_cases (fun p h => h == some (Value.vString p)) (fun _ => ("tok"))
      [demoUser] ("a@b.com") ("WRONG")).2 demoUser (by decide)).2 (by decide)

/-! Claim C8. -/

/-- C8: the update-mutation input arguments expose every non-relation field
under its own name, non-null exactly when the field is required and named
id; every one-to-one relation field becomes an optional `${fieldName}Id`
identifier argument; list relations are omitted entirely.  Consequently a
non-null argument can only be the id field. -/
theorem update_args_all_optional_except_id (s : ClientSchema) :
    generateUpdateObjectMutationInputArguments s =
      ((s.fields.filter (fun f => !(parseClientType f s.modelName).isRelation)).map
        (fun f => (f.fieldName,
          if f.isRequired && (f.fieldName == ("id"))
          then GType.gNonNull (parseClientType f s.modelName)
          else parseClientType f s.modelName))) ++
      ((s.fields.filter
          (fun f => (parseClientType f s.modelName).isRelation && !f.isList)).map
        (fun f => (f.fieldName ++ ("Id"), GType.gID))) ∧
    ∀ p ∈ generateUpdateObjectMutationInputArguments s,
      (∃ t, p.2 = GType.gNonNull t) → p.1 = ("id") := by
  have heq : generateUpdateObjectMutationInputArguments s =
      ((s.fields.filter (fun f => !(parseClientType f s.modelName).isRelation)).map
        (fun f => (f.fieldName,
          if f.isRequired && (f.fieldName == ("id"))
          then GType.gNonNull (parseClientType f s.modelName)
          else parseClientType f s.modelName))) ++
      ((s.fields.filter
          (fun f => (parseClientType f s.modelName).isRelation && !f.isList)).map
        (fun f => (f.fieldName ++ ("Id"), GType.gID))) := by
    simp only [generateUpdateObjectMutationInputArguments,
      generateObjectMutationInputArguments]
    congr 1
    · apply List.map_congr_left
      intro f hf
      simp only [Bool.true_and, Bool.false_or, bne, Bool.not_not]
    · apply List.map_congr_left
      intro f hf
      simp
  refine ⟨heq, ?_⟩
  intro p hp hnn
  rw [heq] at hp
  rcases List.mem_append.mp hp with h | h
  · obtain ⟨f, hf, rfl⟩ := List.mem_map.mp h
    rcases hnn with ⟨t, ht⟩
    by_cases hc : (f.isRequired && (f.fieldName == ("id"))) = true
    · have : f.fieldName = ("id") := by
        have := (Bool.and_eq_true _ _).mp hc
        exact beq_iff_eq.mp this.2
      simpa using this
    · rw [if_neg hc] at ht
      exact absurd ht (parseClientType_ne_nonNull f s.modelName t)
  · obtain ⟨f, hf, rfl⟩ := List.mem_map.mp h
    rcases hnn with ⟨t, ht⟩
    simp at ht

/-- C8 witness instantiation: on the demonstration entity the required id
argument is present non-null and the theorem identifies it as the id
field. -/
theorem update_args_all_optional_except_id_witness :
    (("id"), GType.gNonNull GType.gString) ∈
      generateUpdateObjectMutationInputArguments demoUserSchema ∧
    ((("id"), GType.gNonNull GType.gString) : String × GType).1 = ("id") := by
  constructor
  · decide
  · exact (update_args_all_optional_except_id demoUserSchema).2
      (("id"), GType.gNonNull GType.gString) (by decide) ⟨GType.gString, rfl⟩

/-! Claim C9. -/

theorem mem_of_lookup {β : Type} (l : List (String × β)) (k : String) (v : β)
    (h : l.lookup k = some v) : (k, v) ∈ l := by
  induction l with
  | nil => simp at h
  | cons p t ih =>
    obtain ⟨k₂, v₂⟩ := p
    by_cases hk : k = k₂
    · subst hk
      rw [List.lookup_cons_self] at h
      injection h with h2
      subst h2
      exact List.mem_cons_self _ _
    · rw [List.lookup_cons, beq_false_of_ne hk] at h
      exact List.mem_cons_of_mem _ (ih h)

/-- After a parseEnumField call the cache holds the returned instance under
the `${modelName}_${fieldName}` key. -/
theorem parseEnumField_lookup_key (cache : List (String × EnumInstance)) (hp : Heap)
    (m : String) (f : ClientSchemaField) :
    ((parseEnumField cache hp m f).2.1).lookup (m ++ ("_") ++ f.fieldName) =
      some (parseEnumField cache hp m f).1 := by
  unfold parseEnumField
  cases hc : cache.lookup (m ++ ("_") ++ f.fieldName) with
  | some inst => simp [hc]
  | none =>
      simp only [hc]
      rw [lookup_append_of_none _ _ _ hc]
      simp [List.lookup_cons]

/-- A cached key makes parseEnumField return the cached instance without
touching cache or heap. -/
theorem parseEnumField_cached (cache : List (String × EnumInstance)) (hp : Heap)
    (m : String) (g : ClientSchemaField) (inst : EnumInstance)
    (hc : cache.lookup (m ++ ("_") ++ g.fieldName) = some inst) :
    parseEnumField cache hp m g = (inst, cache, hp) := by
  unfold parseEnumField
  simp only [hc]

/-- Every instance in the cache stays between the starting allocation bound
and the current heap counter as parseEnumField steps execute. -/
theorem parseEnumField_invariant (cache : List (String × EnumInstance)) (hp : Heap)
    (m : String) (f : ClientSchemaField) (lo : Nat)
    (hinv : ∀ p ∈ cache, lo ≤ p.2.instanceId ∧ p.2.instanceId < hp.nextId)
    (hlo : lo ≤ hp.nextId) :
    (∀ p ∈ (parseEnumField cache hp m f).2.1,
        lo ≤ p.2.instanceId ∧ p.2.instanceId < ((parseEnumField cache hp m f).2.2).nextId) ∧
    lo ≤ ((parseEnumField cache hp m f).2.2).nextId := by
  unfold parseEnumField
  cases hc : cache.lookup (m ++ ("_") ++ f.fieldName) with
  | some inst =>
      simp only [hc]
      exact ⟨hinv, hlo⟩
  | none =>
      simp only [hc, newEnumInstance]
      constructor
      · intro p hmem
        rcases List.mem_append.mp hmem with hmem | hmem
        · have := hinv p hmem
          exact ⟨this.1, Nat.lt_succ_of_lt this.2⟩
        · have hp2 := List.mem_singleton.mp hmem
          rw [hp2]
          exact ⟨hlo, Nat.lt_succ_self _⟩
      · exact Nat.le_succ_of_le hlo

/-- A fold preserves any invariant its step preserves. -/
theorem foldl_preserve {σ α : Type} (P : σ → Prop) (step : σ → α → σ)
    (hstep : ∀ s a, P s → P (step s a)) :
    ∀ (l : List α) (s : σ), P s → P (l.foldl step s) := by
  intro l
  induction l with
  | nil => exact fun s hs => hs
  | cons a t ih => exact fun s hs => ih _ (hstep s a hs)

/-- Instances recorded by one createTypes invocation carry allocation ids
at least the invocation's starting counter and below its final counter. -/
theorem createTypesEnums_bounds (hp : Heap) (schemas : List ClientSchema) :
    (∀ p ∈ (createTypesEnums hp schemas).1,
        hp.nextId ≤ p.2.instanceId ∧
        p.2.instanceId < ((createTypesEnums hp schemas).2).nextId) ∧
    hp.nextId ≤ ((createTypesEnums hp schemas).2).nextId := by
  unfold createTypesEnums
  refine foldl_preserve
      (fun st : List (String × EnumInstance) × Heap =>
        (∀ p ∈ st.1, hp.nextId ≤ p.2.instanceId ∧ p.2.instanceId < st.2.nextId) ∧
        hp.nextId ≤ st.2.nextId)
      _ ?_ schemas ([], hp)
      ⟨fun p hmem => absurd hmem (List.not_mem_nil p), le_refl _⟩
  intro st s hst
  refine foldl_preserve
      (fun st : List (String × EnumInstance) × Heap =>
        (∀ p ∈ st.1, hp.nextId ≤ p.2.instanceId ∧ p.2.instanceId < st.2.nextId) ∧
        hp.nextId ≤ st.2.nextId)
      _ ?_ s.fields st hst
  intro st2 f hst2
  by_cases he : f.typeIdentifier = ("Enum")
  · simp only [if_pos he]
    exact parseEnumField_invariant st2.1 st2.2 s.modelName f hp.nextId hst2.1 hst2.2
  · simp only [if_neg he]
    exact hst2

/-- C9 counterexample: invoking createTypes twice on the same schema
descriptions does not return the same enum object for the same
`${modelName}_${fieldName}` key: the per-invocation cache starts empty, so
the second invocation allocates a fresh instance (structurally equal, but a
different object). -/
theorem enum_cache_not_shared_across_invocations :
    ((createTypesEnums ⟨0⟩ [⟨("M"), [⟨("color"), ("Enum"), false, false, [("RED")], none⟩]⟩]).1).lookup
        ("M_color") =
      some { instanceId := 0, name := ("M_color"), values := [("RED")] } ∧
    ((createTypesEnums
          (createTypesEnums ⟨0⟩
            [⟨("M"), [⟨("color"), ("Enum"), false, false, [("RED")], none⟩]⟩]).2
          [⟨("M"), [⟨("color"), ("Enum"), false, false, [("RED")], none⟩]⟩]).1).lookup
        ("M_color") =
      some { instanceId := 1, name := ("M_color"), values := [("RED")] } ∧
    (some { instanceId := 0, name := ("M_color"), values := [("RED")] } :
        Option EnumInstance) ≠
      some { instanceId := 1, name := ("M_color"), values := [("RED")] } := by
  refine ⟨by decide, by decide, by decide⟩

/-- C9 amended: within a single createTypes invocation, requesting the enum
type for the same model and field name twice returns the identical cached
instance; across repeated createTypes invocations, however, the cache is
rebuilt from scratch while the allocator advances, so the two invocations
never share an instance for any key. -/
theorem enum_type_identity_per_invocation :
    (∀ (cache : List (String × EnumInstance)) (hp : Heap) (m : String)
        (f g : ClientSchemaField), g.fieldName = f.fieldName →
        (parseEnumField (parseEnumField cache hp m f).2.1
            (parseEnumField cache hp m f).2.2 m g).1 =
          (parseEnumField cache hp m f).1) ∧
    (∀ (hp : Heap) (schemas : List ClientSchema) (key : String)
        (i1 i2 : EnumInstance),
        ((createTypesEnums hp schemas).1).lookup key = some i1 →
        ((createTypesEnums (createTypesEnums hp schemas).2 schemas).1).lookup key =
          some i2 →
        i1 ≠ i2) := by
  constructor
  · intro cache hp m f g hname
    rw [parseEnumField_cached _ _ _ _ (parseEnumField cache hp m f).1
      (by rw [hname]; exact parseEnumField_lookup_key cache hp m f)]
  · intro hp schemas key i1 i2 h1 h2 heq
    have b1 := (createTypesEnums_bounds hp schemas).1 (key, i1)
      (mem_of_lookup _ _ _ h1)
    have b2 := (createTypesEnums_bounds (createTypesEnums hp schemas).2 schemas).1 (key, i2)
      (mem_of_lookup _ _ _ h2)
    rw [heq] at b1
    omega

/-- C9 amended, witness instantiation: the identical-instance property at a
concrete cache state and the cross-invocation distinctness at the concrete
schema batch. -/
theorem enum_type_identity_per_invocation_witness :
    (parseEnumField
        (parseEnumField [] ⟨0⟩ ("M") ⟨("color"), ("Enum"), false, false, [("RED")], none⟩).2.1
        (parseEnumField [] ⟨0⟩ ("M") ⟨("color"), ("Enum"), false, false, [("RED")], none⟩).2.2
        ("M") ⟨("color"), ("Enum"), false, false, [("RED")], none⟩).1 =
      (parseEnumField [] ⟨0⟩ ("M") ⟨("color"), ("Enum"), false, false, [("RED")], none⟩).1 ∧
    ({ instanceId := 0, name := ("M_color"), values := [("RED")] } : EnumInstance) ≠
      { instanceId := 1, name := ("M_color"), values := [("RED")] } := by
  constructor
  · exact enum_type_identity_per_invocation.1 [] ⟨0⟩ ("M")
      ⟨("color"), ("Enum"), false, false, [("RED")], none⟩
      ⟨("color"), ("Enum"), false, false, [("RED")], none⟩ rfl
  · exact enum_type_identity_per_invocation.2 ⟨0⟩
      [⟨("M"), [⟨("color"), ("Enum"), false, false, [("RED")], none⟩]⟩] ("M_color")
      { instanceId := 0, name := ("M_color"), values := [("RED")] }
      { instanceId := 1, name := ("M_color"), values := [("RED")] }
      (by decide) (by decide)

/-! Claim C1. -/

theorem isRelation_iff (t : GType) :
    t.isRelation = true ↔ ∃ ti, t = GType.gRelation ti := by
  cases t <;> simp [GType.isRelation]

theorem resolveFieldType_of_not_relation (f : ClientSchemaField) (mn : String)
    (h : (parseClientType f mn).isRelation = false) :
    resolveFieldType f mn = parseClientType f mn := by
  unfold resolveFieldType
  cases hp : parseClientType f mn <;> simp_all [GType.isRelation]

theorem resolveFieldType_of_relation (f : ClientSchemaField) (mn ti : String)
    (h : parseClientType f mn = GType.gRelation ti) :
    resolveFieldType f mn =
      (if f.isList then GType.gConnection ti else GType.gObject ti) := by
  unfold resolveFieldType
  rw [h]

theorem resolveFieldType_ne_relation (f : ClientSchemaField) (mn ti : String) :
    resolveFieldType f mn ≠ GType.gRelation ti := by
  by_cases h : (parseClientType f mn).isRelation = true
  · rcases (isRelation_iff _).mp h with ⟨ti2, hti⟩
    rw [resolveFieldType_of_relation f mn ti2 hti]
    split <;> simp
  · rw [resolveFieldType_of_not_relation f mn (by simpa using h)]
    intro he
    rw [he] at h
    exact h rfl

theorem wrapStep_lookup_ne (m : List (String × GType)) (f : ClientSchemaField)
    (nm : String) (h : nm ≠ f.fieldName) :
    (wrapStep m f).lookup nm = m.lookup nm := by
  unfold wrapStep
  cases hc : m.lookup f.fieldName with
  | some t => exact lookup_setFieldType_ne m f.fieldName nm (GType.gNonNull t) h
  | none => rfl

theorem foldl_wrapStep_notmem :
    ∀ (fs : List ClientSchemaField) (m : List (String × GType)) (nm : String),
      nm ∉ fs.map (fun g => g.fieldName) →
      (fs.foldl wrapStep m).lookup nm = m.lookup nm := by
  intro fs
  induction fs with
  | nil => intro m nm _; rfl
  | cons a rest ih =>
      intro m nm hnm
      simp only [List.map_cons, List.mem_cons, not_or] at hnm
      rw [List.foldl_cons, ih _ _ hnm.2, wrapStep_lookup_ne m a nm hnm.1]

theorem foldl_wrapStep_mem :
    ∀ (fs : List ClientSchemaField) (m : List (String × GType))
      (f : ClientSchemaField) (v : GType),
      (fs.map (fun g => g.fieldName)).Nodup → f ∈ fs →
      m.lookup f.fieldName = some v →
      (fs.foldl wrapStep m).lookup f.fieldName = some (GType.gNonNull v) := by
  intro fs
  induction fs with
  | nil => intro m f v _ hf _; simp at hf
  | cons a rest ih =>
      intro m f v hnd hf hv
      simp only [List.map_cons, List.nodup_cons] at hnd
      rw [List.foldl_cons]
      rcases List.mem_cons.mp hf with rfl | hmem
      · rw [foldl_wrapStep_notmem rest _ _ hnd.1]
        unfold wrapStep
        rw [hv]
        exact lookup_setFieldType_self m f.fieldName _ v hv
      · have hne : f.fieldName ≠ a.fieldName := fun he =>
          hnd.1 (he ▸ List.mem_map_of_mem (fun x => x.fieldName) hmem)
        exact ih _ f v hnd.2 hmem
          (by rw [wrapStep_lookup_ne m a _ hne]; exact hv)

theorem injectStep_lookup_ne (allM : List String) (m m₂ : List (String × GType))
    (f : ClientSchemaField) (nm : String)
    (hstep : injectStep allM m f = some m₂) (h : nm ≠ f.fieldName) :
    m₂.lookup nm = m.lookup nm := by
  unfold injectStep at hstep
  split at hstep
  · split at hstep
    · injection hstep with h2
      rw [← h2]
      exact lookup_setFieldType_ne m f.fieldName nm _ h
    · exact Option.noConfusion hstep
  · exact Option.noConfusion hstep

theorem foldlM_injectStep_notmem (allM : List String) :
    ∀ (fs : List ClientSchemaField) (m m₂ : List (String × GType)) (nm : String),
      fs.foldlM (injectStep allM) m = some m₂ →
      nm ∉ fs.map (fun g => g.fieldName) →
      m₂.lookup nm = m.lookup nm := by
  intro fs
  induction fs with
  | nil =>
      intro m m₂ nm hfold _
      injection hfold with h
      rw [← h]
  | cons a rest ih =>
      intro m m₂ nm hfold hnm
      rw [List.foldlM_cons] at hfold
      rcases Option.bind_eq_some.mp hfold with ⟨m₁, hstep, hrest⟩
      simp only [List.map_cons, List.mem_cons, not_or] at hnm
      rw [ih m₁ m₂ nm hrest hnm.2]
      exact injectStep_lookup_ne allM m m₁ a nm hstep hnm.1

theorem foldlM_injectStep_mem (allM : List String) :
    ∀ (fs : List ClientSchemaField) (m m₂ : List (String × GType))
      (f : ClientSchemaField) (ti : String),
      (fs.map (fun g => g.fieldName)).Nodup → f ∈ fs →
      m.lookup f.fieldName = some (GType.gRelation ti) →
      fs.foldlM (injectStep allM) m = some m₂ →
      m₂.lookup f.fieldName =
        some (if f.isList then GType.gConnection ti else GType.gObject ti) := by
  intro fs
  induction fs with
  | nil => intro m m₂ f ti _ hf _ _; simp at hf
  | cons a rest ih =>
      intro m m₂ f ti hnd hf hv hfold
      rw [List.foldlM_cons] at hfold
      rcases Option.bind_eq_some.mp hfold with ⟨m₁, hstep, hrest⟩
      simp only [List.map_cons, List.nodup_cons] at hnd
      rcases List.mem_cons.mp hf with rfl | hmem
      · unfold injectStep at hstep
        split at hstep
        · rename_i ti2 heq
          rw [hv] at heq
          injection heq with heq2
          injection heq2 with heq3
          subst heq3
          split at hstep
          · injection hstep with h2
            rw [foldlM_injectStep_notmem allM rest m₁ m₂ f.fieldName hrest hnd.1, ← h2]
            exact lookup_setFieldType_self m f.fieldName _ _ hv
          · exact Option.noConfusion hstep
        · exact Option.noConfusion hstep
      · have hne : f.fieldName ≠ a.fieldName := fun he =>
          hnd.1 (he ▸ List.mem_map_of_mem (fun x => x.fieldName) hmem)
        exact ih m₁ m₂ f ti hnd.2 hmem
          (by rw [injectStep_lookup_ne allM m m₁ a f.fieldName hstep hne]; exact hv)
          hrest

theorem injectRelationships_lookup (s : ClientSchema) (allM : List String)
    (m₂ : List (String × GType)) (f : ClientSchemaField)
    (hnd : (s.fields.map (fun g => g.fieldName)).Nodup) (hf : f ∈ s.fields)
    (hinj : injectRelationships (generateObjectTypeFields s) s allM = some m₂) :
    m₂.lookup f.fieldName = some (resolveFieldType f s.modelName) := by
  have hbase : (generateObjectTypeFields s).lookup f.fieldName =
      some (parseClientType f s.modelName) :=
    lookup_map_fieldName _ s.fields f hnd hf
  unfold injectRelationships at hinj
  have hndfilter : ((s.fields.filter
      (fun g => (((generateObjectTypeFields s).lookup g.fieldName).map
        GType.isRelation).getD false)).map (fun g => g.fieldName)).Nodup :=
    List.Nodup.sublist ((List.filter_sublist s.fields).map (fun g => g.fieldName)) hnd
  by_cases hrel : (parseClientType f s.modelName).isRelation = true
  · rcases (isRelation_iff _).mp hrel with ⟨ti, hti⟩
    have hfilter : f ∈ s.fields.filter
        (fun g => (((generateObjectTypeFields s).lookup g.fieldName).map
          GType.isRelation).getD false) := by
      apply List.mem_filter.mpr
      refine ⟨hf, ?_⟩
      rw [hbase]
      simpa using hrel
    rw [foldlM_injectStep_mem allM _ _ m₂ f ti hndfilter hfilter
      (by rw [hbase, hti]) hinj]
    rw [resolveFieldType_of_relation f s.modelName ti hti]
  · have hrel2 : (parseClientType f s.modelName).isRelation = false := by
      simpa using hrel
    have hnotmem : f.fieldName ∉ (s.fields.filter
        (fun g => (((generateObjectTypeFields s).lookup g.fieldName).map
          GType.isRelation).getD false)).map (fun g => g.fieldName) := by
      intro hmem
      rcases List.mem_map.mp hmem with ⟨g, hg, hgname⟩
      have hgpred := (List.mem_filter.mp hg).2
      rw [hgname, hbase] at hgpred
      simp [hrel2] at hgpred
    rw [foldlM_injectStep_notmem allM _ _ m₂ f.fieldName hinj hnotmem, hbase,
      resolveFieldType_of_not_relation f s.modelName hrel2]

theorem mapM_option_mem {α β : Type} (g : α → Option β) :
    ∀ (l : List α) (l₂ : List β), l.mapM g = some l₂ →
      ∀ b ∈ l₂, ∃ a ∈ l, g a = some b := by
  intro l
  induction l with
  | nil =>
      intro l₂ hmap b hb
      rw [List.mapM_nil] at hmap
      injection hmap with h
      rw [← h] at hb
      simp at hb
  | cons a rest ih =>
      intro l₂ hmap b hb
      rw [List.mapM_cons] at hmap
      rcases Option.bind_eq_some.mp hmap with ⟨b₁, hga, hrest⟩
      rcases Option.bind_eq_some.mp hrest with ⟨bs, hbs, hpure⟩
      injection hpure with h
      rw [← h] at hb
      rcases List.mem_cons.mp hb with rfl | hbmem
      · exact ⟨a, List.mem_cons_self _ _, hga⟩
      · rcases ih bs hbs b hbmem with ⟨a₂, ha₂, hga₂⟩
        exact ⟨a₂, List.mem_cons_of_mem _ ha₂, hga₂⟩

theorem createTypes_mem_decompose (schemas : List ClientSchema)
    (ts : List (ClientSchema × List (String × GType)))
    (hts : createTypes schemas = some ts) (s : ClientSchema)
    (m : List (String × GType)) (hmem : (s, m) ∈ ts) :
    ∃ m₁, injectRelationships (generateObjectTypeFields s) s
        (schemas.map (fun x => x.modelName)) = some m₁ ∧
      m = wrapWithNonNull m₁ s := by
  simp only [createTypes] at hts
  rcases Option.map_eq_some'.mp hts with ⟨wired, hwired, hts2⟩
  rw [← hts2] at hmem
  rcases List.mem_map.mp hmem with ⟨⟨s₁, m₁⟩, hw, hpair⟩
  simp only [Prod.mk.injEq] at hpair
  rcases mapM_option_mem _ _ _ hwired (s₁, m₁) hw with ⟨⟨s₀, m₀⟩, hbase, hg⟩
  rcases List.mem_map.mp hbase with ⟨s₂, _, hpair₂⟩
  simp only [Prod.mk.injEq] at hpair₂
  rcases Option.map_eq_some'.mp hg with ⟨m₃, hinj, hpair₃⟩
  simp only [Prod.mk.injEq] at hpair₃
  refine ⟨m₁, ?_, ?_⟩
  · rw [← hpair.1, ← hpair₃.1, ← hpair₂.1, ← hpair₂.2] at *
    rw [← hpair₃.2] at *
    exact hinj
  · rw [← hpair.2, hpair.1]

/-- C1: for every entity bundle produced by a successful createTypes run over
a batch with distinct field names, every field marked isRequired carries the
non-null wrapping of its final resolved type: the connection type or the
related object type for relation fields, the parsed scalar or enum type
otherwise; the wrapped type is never the unresolved relation placeholder,
because the non-null pass runs only after the relationship-wiring pass. -/
theorem required_fields_nonnull_after_wiring (schemas : List ClientSchema)
    (ts : List (ClientSchema × List (String × GType)))
    (hts : createTypes schemas = some ts) (s : ClientSchema)
    (m : List (String × GType)) (hmem : (s, m) ∈ ts)
    (hnd : (s.fields.map (fun g => g.fieldName)).Nodup)
    (f : ClientSchemaField) (hf : f ∈ s.fields) (hreq : f.isRequired = true) :
    m.lookup f.fieldName = some (GType.gNonNull (resolveFieldType f s.modelName)) ∧
    ∀ ti, resolveFieldType f s.modelName ≠ GType.gRelation ti := by
  rcases createTypes_mem_decompose schemas ts hts s m hmem with ⟨m₁, hinj, hwrap⟩
  have hlook := injectRelationships_lookup s _ m₁ f hnd hf hinj
  constructor
  · rw [hwrap]
    unfold wrapWithNonNull
    apply foldl_wrapStep_mem
    · exact List.Nodup.sublist
        ((List.filter_sublist s.fields).map (fun g => g.fieldName)) hnd
    · exact List.mem_filter.mpr ⟨hf, hreq⟩
    · exact hlook
  · exact fun ti => resolveFieldType_ne_relation f s.modelName ti

/-- The field map createTypes produces for the demonstration User entity. -/
def demoUserFieldMap : List (String × GType) :=
  [(("id"), GType.gNonNull GType.gString),
   (("posts"), GType.gNonNull (GType.gConnection ("Post"))),
   (("boss"), GType.gObject ("User"))]

/-- The field map createTypes produces for the demonstration Post entity. -/
def demoPostFieldMap : List (String × GType) :=
  [(("id"), GType.gNonNull GType.gString)]

/-- The full demonstration bundle list. -/
def demoTypes : List (ClientSchema × List (String × GType)) :=
  [(demoUserSchema, demoUserFieldMap), (demoPostSchema, demoPostFieldMap)]

/-- C1 witness instantiation: the demonstration batch compiles successfully
and the required one-to-many relation field ends as the non-null wrapping of
the connection type. -/
theorem required_fields_nonnull_after_wiring_witness :
    createTypes demoSchemas = some demoTypes ∧
    demoUserFieldMap.lookup ("posts") =
      some (GType.gNonNull (GType.gConnection ("Post"))) := by
  constructor
  · decide
  · exact (required_fields_nonnull_after_wiring demoSchemas demoTypes (by decide)
      demoUserSchema demoUserFieldMap (by decide) (by decide)
      ⟨("posts"), ("Post"), true, true, [], none⟩ (by decide) rfl).1

/-! Claim C6: splitting machinery. -/

/-- The "_ASC" suffix as an explicit character list. -/
def ascSep : List Char := ['_', 'A', 'S', 'C']

/-- The "_DESC" suffix as an explicit character list. -/
def descSep : List Char := ['_', 'D', 'E', 'S', 'C']

theorem asc_data : ("_ASC").data = ascSep := rfl

theorem desc_data : ("_DESC").data = descSep := rfl

theorem charSplitOnF_fuel_irrel (sep : List Char) :
    ∀ (f₁ : Nat) (xs : List Char) (f₂ : Nat), xs.length ≤ f₁ → xs.length ≤ f₂ →
      charSplitOnF sep f₁ xs = charSplitOnF sep f₂ xs := by
  intro f₁
  induction f₁ with
  | zero =>
      intro xs f₂ h1 _
      have hx : xs = [] := List.eq_nil_of_length_eq_zero (Nat.le_zero.mp h1)
      subst hx
      cases f₂ <;> rfl
  | succ a ih =>
      intro xs f₂ h1 h2
      cases xs with
      | nil => cases f₂ <;> rfl
      | cons c cs =>
          cases f₂ with
          | zero => simp at h2
          | succ b =>
              simp only [charSplitOnF]
              by_cases hcut : sep ≠ [] ∧ sep.isPrefixOf (c :: cs)
              · rw [if_pos hcut, if_pos hcut]
                have hsep : 0 < sep.length := List.length_pos.mpr hcut.1
                have hla : ((c :: cs).drop sep.length).length ≤ a := by
                  simp only [List.length_drop, List.length_cons]
                  simp only [List.length_cons] at h1
                  omega
                have hlb : ((c :: cs).drop sep.length).length ≤ b := by
                  simp only [List.length_drop, List.length_cons]
                  simp only [List.length_cons] at h2
                  omega
                rw [ih ((c :: cs).drop sep.length) b hla hlb]
              · rw [if_neg hcut, if_neg hcut]
                have hla : cs.length ≤ a := by
                  simp only [List.length_cons] at h1
                  omega
                have hlb : cs.length ≤ b := by
                  simp only [List.length_cons] at h2
                  omega
                rw [ih cs b hla hlb]

theorem charSplitOn_cut (sep : List Char) (c : Char) (cs : List Char)
    (hne : sep ≠ []) (hpre : sep.isPrefixOf (c :: cs)) :
    charSplitOn sep (c :: cs) = [] :: charSplitOn sep ((c :: cs).drop sep.length) := by
  unfold charSplitOn
  simp only [List.length_cons, charSplitOnF]
  rw [if_pos ⟨hne, hpre⟩]
  congr 1
  apply charSplitOnF_fuel_irrel
  · have hsep : 0 < sep.length := List.length_pos.mpr hne
    simp only [List.length_drop, List.length_cons]
    omega
  · exact le_refl _

theorem charSplitOn_cut_self (sep : List Char) (xs : List Char) (hne : sep ≠ [])
    (hxs : xs ≠ []) (hpre : sep.isPrefixOf xs) :
    charSplitOn sep xs = [] :: charSplitOn sep (xs.drop sep.length) := by
  cases xs with
  | nil => exact absurd rfl hxs
  | cons c cs => exact charSplitOn_cut sep c cs hne hpre

theorem charSplitOn_nocut (sep : List Char) (c : Char) (cs : List Char)
    (h : ¬(sep ≠ [] ∧ sep.isPrefixOf (c :: cs))) :
    charSplitOn sep (c :: cs) =
      match charSplitOn sep cs with
      | [] => [[c]]
      | p :: ps => (c :: p) :: ps := by
  unfold charSplitOn
  simp only [List.length_cons, charSplitOnF]
  rw [if_neg h]

theorem charSplitOn_of_not_infix (sep : List Char) (_hne : sep ≠ []) :
    ∀ xs : List Char, ¬ sep <:+: xs → charSplitOn sep xs = [xs] := by
  intro xs
  induction xs with
  | nil => intro _; rfl
  | cons c cs ih =>
      intro hinf
      have hnp : ¬ (sep ≠ [] ∧ sep.isPrefixOf (c :: cs)) := by
        rintro ⟨_, hp⟩
        exact hinf (List.IsPrefix.isInfix (List.isPrefixOf_iff_prefix.mp hp))
      rw [charSplitOn_nocut sep c cs hnp, ih (fun h => hinf (List.infix_cons h))]

theorem charSplitOn_append_sep (sep : List Char) (hne : sep ≠ [])
    (hborder : ∀ k, k < sep.length → 0 < k → ¬ sep.drop k <+: sep) :
    ∀ xs : List Char, ¬ sep <:+: xs → charSplitOn sep (xs ++ sep) = [xs, []] := by
  intro xs
  induction xs with
  | nil =>
      intro _
      rw [List.nil_append,
        charSplitOn_cut_self sep sep hne hne (List.isPrefixOf_iff_prefix.mpr List.prefix_rfl),
        List.drop_length]
      rfl
  | cons c cs ih =>
      intro hinf
      have hnp : ¬ sep.isPrefixOf ((c :: cs) ++ sep) := by
        intro hp
        have hp2 : sep <+: (c :: cs) ++ sep := List.isPrefixOf_iff_prefix.mp hp
        by_cases hlen : sep.length ≤ (c :: cs).length
        · exact hinf (List.IsPrefix.isInfix
            (List.prefix_of_prefix_length_le hp2 (List.prefix_append _ _) hlen))
        · have hx : (c :: cs) <+: sep :=
            List.prefix_of_prefix_length_le (List.prefix_append _ _) hp2 (by omega)
          have heq : (c :: cs) ++ sep.drop (c :: cs).length = sep :=
            List.prefix_iff_eq_append.mp hx
          have h3 : (c :: cs) ++ sep.drop (c :: cs).length <+: (c :: cs) ++ sep := by
            rw [heq]
            exact hp2
          exact hborder (c :: cs).length (by omega) (by simp)
            ((List.prefix_append_right_inj (c :: cs)).mp h3)
      rw [List.cons_append,
        charSplitOn_nocut sep c (cs ++ sep) (fun hcc => hnp hcc.2),
        ih (fun h => hinf (List.infix_cons h))]

theorem infix_append_cases (sep₁ sep₂ : List Char) :
    ∀ xs : List Char, sep₁ <:+: xs ++ sep₂ →
      sep₁ <:+: xs ∨ sep₁ <:+: sep₂ ∨
        ∃ k, 0 < k ∧ k < sep₁.length ∧ sep₁.drop k <+: sep₂ := by
  intro xs
  induction xs with
  | nil => intro h; exact Or.inr (Or.inl h)
  | cons c cs ih =>
      intro h
      rcases List.infix_cons_iff.mp h with hpre | hrest
      · by_cases hlen : sep₁.length ≤ (c :: cs).length
        · exact Or.inl (List.IsPrefix.isInfix
            (List.prefix_of_prefix_length_le hpre (List.prefix_append _ _) hlen))
        · have hx : (c :: cs) <+: sep₁ :=
            List.prefix_of_prefix_length_le (List.prefix_append _ _) hpre (by omega)
          have heq : (c :: cs) ++ sep₁.drop (c :: cs).length = sep₁ :=
            List.prefix_iff_eq_append.mp hx
          have h3 : (c :: cs) ++ sep₁.drop (c :: cs).length <+: (c :: cs) ++ sep₂ := by
            rw [heq]
            exact hpre
          exact Or.inr (Or.inr ⟨(c :: cs).length, by simp, by omega,
            (List.prefix_append_right_inj (c :: cs)).mp h3⟩)
      · rcases ih hrest with h2 | h2 | h2
        · exact Or.inl (List.infix_cons h2)
        · exact Or.inr (Or.inl h2)
        · exact Or.inr (Or.inr h2)

theorem not_desc_infix_append_asc (f : List Char) (hf : ¬ descSep <:+: f) :
    ¬ descSep <:+: f ++ ascSep := by
  intro h
  rcases infix_append_cases descSep ascSep f h with h2 | h2 | ⟨k, hk0, hk, hd⟩
  · exact hf h2
  · revert h2; decide
  · have hk5 : k < 5 := hk
    interval_cases k <;> revert hd <;> decide

/-! Claim C6: comparator machinery. -/

theorem valueKind_le_of_valueLe (x y : Option Value) (h : valueLe x y = true) :
    valueKind x ≤ valueKind y := by
  unfold valueLe at h
  split at h
  · simp [valueKind]
  · simp [valueKind]
  · exact of_decide_eq_true h

theorem valueKind_eq_zero (y : Option Value) (h : valueKind y = 0) :
    ∃ t, y = some (Value.vString t) := by
  rcases y with _ | v
  · simp [valueKind] at h
  · cases v with
    | vString s => exact ⟨s, rfl⟩
    | vInt n => simp [valueKind] at h
    | vBool b => simp [valueKind] at h
    | vNull => simp [valueKind] at h

theorem valueKind_eq_one (y : Option Value) (h : valueKind y = 1) :
    ∃ n, y = some (Value.vInt n) := by
  rcases y with _ | v
  · simp [valueKind] at h
  · cases v with
    | vString s => simp [valueKind] at h
    | vInt n => exact ⟨n, rfl⟩
    | vBool b => simp [valueKind] at h
    | vNull => simp [valueKind] at h

theorem valueLe_trans (x y z : Option Value) (h₁ : valueLe x y = true)
    (h₂ : valueLe y z = true) : valueLe x z = true := by
  have k₁ := valueKind_le_of_valueLe x y h₁
  have k₂ := valueKind_le_of_valueLe y z h₂
  rcases x with _ | (s | m | b | _) <;> rcases z with _ | (u | n | c | _) <;>
    try exact decide_eq_true (le_trans k₁ k₂)
  · have h0 : valueKind y ≤ 0 := by simpa [valueKind] using k₂
    rcases valueKind_eq_zero y (Nat.le_zero.mp h0) with ⟨t, rfl⟩
    exact decide_eq_true (le_trans (of_decide_eq_true h₁) (of_decide_eq_true h₂))
  · have h1le : 1 ≤ valueKind y := by simpa [valueKind] using k₁
    have h2le : valueKind y ≤ 1 := by simpa [valueKind] using k₂
    rcases valueKind_eq_one y (le_antisymm h2le h1le) with ⟨p, rfl⟩
    exact decide_eq_true (le_trans (of_decide_eq_true h₁) (of_decide_eq_true h₂))

theorem valueLe_total (x y : Option Value) : valueLe x y || valueLe y x := by
  rcases x with _ | (s | m | b | _) <;> rcases y with _ | (u | n | c | _) <;>
    simp [valueLe, valueKind] <;> exact le_total _ _

theorem recordLe_trans (dir : SortDir) (fn : String) :
    ∀ a b c : DBRecord, recordLe dir fn a b → recordLe dir fn b c →
      recordLe dir fn a c := by
  intro a b c h₁ h₂
  cases dir
  · exact valueLe_trans _ _ _ h₁ h₂
  · exact valueLe_trans _ _ _ h₂ h₁

theorem recordLe_total (dir : SortDir) (fn : String) :
    ∀ a b : DBRecord, recordLe dir fn a b || recordLe dir fn b a := by
  intro a b
  cases dir
  · exact valueLe_total _ _
  · exact valueLe_total _ _

/-- Case-insensitive lexicographic non-decreasing order on a string-valued
field, as the claim states it. -/
def ciFieldLe (fn : String) (a b : DBRecord) : Prop :=
  ∃ s t, a.lookup fn = some (Value.vString s) ∧ b.lookup fn = some (Value.vString t) ∧
    s.toLower ≤ t.toLower

/-- Numeric non-decreasing order on an integer-valued field. -/
def intFieldLe (fn : String) (a b : DBRecord) : Prop :=
  ∃ m n, a.lookup fn = some (Value.vInt m) ∧ b.lookup fn = some (Value.vInt n) ∧ m ≤ n

theorem sortRecords_mem (dir : SortDir) (fn : String) (rs : List DBRecord)
    (r : DBRecord) (h : r ∈ sortRecords dir fn rs) : r ∈ rs :=
  (List.mergeSort_perm rs (recordLe dir fn)).mem_iff.mp h

theorem sortRecords_sorted_strings (fn : String) (rs : List DBRecord)
    (h : ∀ r ∈ rs, ∃ s, r.lookup fn = some (Value.vString s)) :
    (sortRecords SortDir.ASC fn rs).Pairwise (ciFieldLe fn) ∧
    (sortRecords SortDir.DESC fn rs).Pairwise (fun a b => ciFieldLe fn b a) := by
  constructor
  · have hp := List.sorted_mergeSort (recordLe_trans SortDir.ASC fn)
      (recordLe_total SortDir.ASC fn) rs
    apply List.Pairwise.imp_of_mem ?_ hp
    intro a b ha hb hle
    rcases h a (sortRecords_mem _ _ _ _ ha) with ⟨s, hs⟩
    rcases h b (sortRecords_mem _ _ _ _ hb) with ⟨t, ht⟩
    refine ⟨s, t, hs, ht, ?_⟩
    simp only [recordLe] at hle
    rw [hs, ht] at hle
    exact of_decide_eq_true hle
  · have hp := List.sorted_mergeSort (recordLe_trans SortDir.DESC fn)
      (recordLe_total SortDir.DESC fn) rs
    apply List.Pairwise.imp_of_mem ?_ hp
    intro a b ha hb hle
    rcases h a (sortRecords_mem _ _ _ _ ha) with ⟨s, hs⟩
    rcases h b (sortRecords_mem _ _ _ _ hb) with ⟨t, ht⟩
    refine ⟨t, s, ht, hs, ?_⟩
    simp only [recordLe] at hle
    rw [hs, ht] at hle
    exact of_decide_eq_true hle

theorem sortRecords_sorted_ints (fn : String) (rs : List DBRecord)
    (h : ∀ r ∈ rs, ∃ m, r.lookup fn = some (Value.vInt m)) :
    (sortRecords SortDir.ASC fn rs).Pairwise (intFieldLe fn) ∧
    (sortRecords SortDir.DESC fn rs).Pairwise (fun a b => intFieldLe fn b a) := by
  constructor
  · have hp := List.sorted_mergeSort (recordLe_trans SortDir.ASC fn)
      (recordLe_total SortDir.ASC fn) rs
    apply List.Pairwise.imp_of_mem ?_ hp
    intro a b ha hb hle
    rcases h a (sortRecords_mem _ _ _ _ ha) with ⟨m, hs⟩
    rcases h b (sortRecords_mem _ _ _ _ hb) with ⟨n, ht⟩
    refine ⟨m, n, hs, ht, ?_⟩
    simp only [recordLe] at hle
    rw [hs, ht] at hle
    exact of_decide_eq_true hle
  · have hp := List.sorted_mergeSort (recordLe_trans SortDir.DESC fn)
      (recordLe_total SortDir.DESC fn) rs
    apply List.Pairwise.imp_of_mem ?_ hp
    intro a b ha hb hle
    rcases h a (sortRecords_mem _ _ _ _ ha) with ⟨m, hs⟩
    rcases h b (sortRecords_mem _ _ _ _ hb) with ⟨n, ht⟩
    refine ⟨n, m, ht, hs, ?_⟩
    simp only [recordLe] at hle
    rw [hs, ht] at hle
    exact of_decide_eq_true hle

/-! Claim C6: orderBy parsing and the resolver-level statements. -/

theorem parseOrderBy_asc (fn : String) (h₁ : ¬ ascSep <:+: fn.data)
    (h₂ : ¬ descSep <:+: fn.data) :
    parseOrderBy (fn ++ ("_ASC")) = (fn, SortDir.ASC) := by
  unfold parseOrderBy
  have hdata : (fn ++ ("_ASC")).data = fn.data ++ ascSep := rfl
  rw [desc_data, asc_data, hdata,
    if_neg (not_desc_infix_append_asc fn.data h₂),
    charSplitOn_append_sep ascSep (by decide) (by decide) fn.data h₁]
  rfl

theorem parseOrderBy_desc (fn : String) (h₂ : ¬ descSep <:+: fn.data) :
    parseOrderBy (fn ++ ("_DESC")) = (fn, SortDir.DESC) := by
  unfold parseOrderBy
  have hdata : (fn ++ ("_DESC")).data = fn.data ++ descSep := rfl
  have hinf : descSep <:+: fn.data ++ descSep := ⟨fn.data, [], by simp⟩
  rw [desc_data, hdata, if_pos hinf,
    charSplitOn_append_sep descSep (by decide) (by decide) fn.data h₂]
  rfl

theorem append_asc_ne_empty (fn : String) : fn ++ ("_ASC") ≠ ("") := by
  intro h
  have h2 : fn.data ++ ascSep = [] := congrArg String.data h
  rcases List.append_eq_nil.mp h2 with ⟨_, h4⟩
  exact absurd h4 (by decide)

theorem append_desc_ne_empty (fn : String) : fn ++ ("_DESC") ≠ ("") := by
  intro h
  have h2 : fn.data ++ descSep = [] := congrArg String.data h
  rcases List.append_eq_nil.mp h2 with ⟨_, h4⟩
  exact absurd h4 (by decide)

/-- C6 counterexample: for a scalar field literally named "a_DESCb" the
generated ascending orderBy enum value "a_DESCb_ASC" is mis-parsed: the
indexOf test finds "_DESC" first, so the resolver recovers direction DESC
and field name "a" instead of direction ASC and field name "a_DESCb". -/
theorem order_by_name_collision :
    (("a_DESCb_ASC") ∈ generateQueryOrderByEnumValues (fun ti => ti == ("String"))
        ⟨("M"), [⟨("a_DESCb"), ("String"), false, false, [], none⟩]⟩) ∧
    parseOrderBy ("a_DESCb_ASC") = (("a"), SortDir.DESC) ∧
    ((("a"), SortDir.DESC) ≠ (("a_DESCb"), SortDir.ASC)) := by
  refine ⟨by decide, by decide, by decide⟩

/-- C6 amended: for a scalar field whose name contains neither "_ASC" nor
"_DESC" as a substring, the orderBy enum value is parsed back to exactly
that field name and direction; the root collection resolver then sorts by
that field, non-decreasing for the ascending value and non-increasing for
the descending one, comparing case-insensitively lexicographically when the
field's values are strings and numerically when they are integers, and the
sorted output is a permutation of the input. -/
theorem order_by_sorting (decode : FilterArg → FilterArg) :
    (∀ fn : String, ¬ ascSep <:+: fn.data → ¬ descSep <:+: fn.data →
        parseOrderBy (fn ++ ("_ASC")) = (fn, SortDir.ASC) ∧
        parseOrderBy (fn ++ ("_DESC")) = (fn, SortDir.DESC)) ∧
    (∀ (fn : String) (arr : List DBRecord),
        ¬ ascSep <:+: fn.data → ¬ descSep <:+: fn.data →
        resolveAllNodes SchemaMode.SIMPLE decode (Except.ok arr)
            { filter := none, orderBy := some (fn ++ ("_ASC")),
              skip := none, take := none } =
          Except.ok (QueryResult.list (sortRecords SortDir.ASC fn arr)) ∧
        resolveAllNodes SchemaMode.SIMPLE decode (Except.ok arr)
            { filter := none, orderBy := some (fn ++ ("_DESC")),
              skip := none, take := none } =
          Except.ok (QueryResult.list (sortRecords SortDir.DESC fn arr))) ∧
    (∀ (fn : String) (arr : List DBRecord),
        (∀ r ∈ arr, ∃ s, r.lookup fn = some (Value.vString s)) →
        (sortRecords SortDir.ASC fn arr).Pairwise (ciFieldLe fn) ∧
        (sortRecords SortDir.DESC fn arr).Pairwise (fun a b => ciFieldLe fn b a)) ∧
    (∀ (fn : String) (arr : List DBRecord),
        (∀ r ∈ arr, ∃ m, r.lookup fn = some (Value.vInt m)) →
        (sortRecords SortDir.ASC fn arr).Pairwise (intFieldLe fn) ∧
        (sortRecords SortDir.DESC fn arr).Pairwise (fun a b => intFieldLe fn b a)) ∧
    (∀ (dir : SortDir) (fn : String) (arr : List DBRecord),
        (sortRecords dir fn arr).Perm arr) := by
  refine ⟨?_, ?_, ?_, ?_, ?_⟩
  · intro fn h₁ h₂
    exact ⟨parseOrderBy_asc fn h₁ h₂, parseOrderBy_desc fn h₂⟩
  · intro fn arr h₁ h₂
    constructor
    · simp only [resolveAllNodes, applyFilterAndOrder, jsOr]
      rw [if_neg (append_asc_ne_empty fn), parseOrderBy_asc fn h₁ h₂]
      rw [jsSlice_skip_all _ 0 (le_refl 0)]
      simp
    · simp only [resolveAllNodes, applyFilterAndOrder, jsOr]
      rw [if_neg (append_desc_ne_empty fn), parseOrderBy_desc fn h₂]
      rw [jsSlice_skip_all _ 0 (le_refl 0)]
      simp
  · exact sortRecords_sorted_strings
  · exact sortRecords_sorted_ints
  · intro dir fn arr
    exact List.mergeSort_perm arr (recordLe dir fn)

/-- C6 amended, witness instantiation: a collision-free field name parses
back exactly; a concrete string column and a concrete integer column
instantiate the sortedness statements. -/
theorem order_by_sorting_witness :
    parseOrderBy (("name") ++ ("_ASC")) = (("name"), SortDir.ASC) ∧
    resolveAllNodes SchemaMode.SIMPLE (fun f => f)
        (Except.ok [[(("name"), Value.vString ("b"))], [(("name"), Value.vString ("A"))]])
        { filter := none, orderBy := some (("name") ++ ("_ASC")),
          skip := none, take := none } =
      Except.ok (QueryResult.list (sortRecords SortDir.ASC ("name")
        [[(("name"), Value.vString ("b"))], [(("name"), Value.vString ("A"))]])) ∧
    (sortRecords SortDir.ASC ("name")
        [[(("name"), Value.vString ("b"))], [(("name"), Value.vString ("A"))]]).Pairwise
      (ciFieldLe ("name")) ∧
    (sortRecords SortDir.ASC ("age")
        [[(("age"), Value.vInt 3)], [(("age"), Value.vInt 1)]]).Pairwise
      (intFieldLe ("age")) := by
  refine ⟨?_, ?_, ?_, ?_⟩
  · exact ((order_by_sorting (fun f => f)).1 ("name") (by decide) (by decide)).1
  · exact ((order_by_sorting (fun f => f)).2.1 ("name")
      [[(("name"), Value.vString ("b"))], [(("name"), Value.vString ("A"))]]
      (by decide) (by decide)).1
  · exact ((order_by_sorting (fun f => f)).2.2.1 ("name")
      [[(("name"), Value.vString ("b"))], [(("name"), Value.vString ("A"))]]
      (by intro r hr
          rcases List.mem_cons.mp hr with rfl | hr2
          · exact ⟨("b"), rfl⟩
          · rw [List.mem_singleton.mp hr2]
            exact ⟨("A"), rfl⟩)).1
  · exact ((order_by_sorting (fun f => f)).2.2.2.1 ("age")
      [[(("age"), Value.vInt 3)], [(("age"), Value.vInt 1)]]
      (by intro r hr
          rcases List.mem_cons.mp hr with rfl | hr2
          · exact ⟨3, rfl⟩
          · rw [List.mem_singleton.mp hr2]
            exact ⟨1, rfl⟩)).1

end GraphcoolApi
